import Mathlib

/-!
A verification development for a small transaction-processing ledger
(`tiny-transaction-processor`, Rust). The core is `TransactionProcessor.process`
in `src/lib.rs`, which applies one classified record (a funds `Transfer` or a
dispute-lifecycle `Amendment`) to the ledger state, and the record classifier
`TryFrom<RawTransaction> for Transaction`.

Modelling choices:
* `rust_decimal::Decimal` is exact decimal arithmetic; the claims only use
  `+`, `-` and order comparisons, so amounts are modelled as `Rat`
  (overflow of the 96-bit mantissa is not modelled).
* `u16`/`u32` ids are opaque equality keys here, modelled as `Nat`.
* `HashMap` is modelled as an association list with replace-on-insert;
  `HashSet` as a list without duplicates, with `insert`/`remove` returning
  the same `Bool` the Rust methods do.
* `process` takes the state and returns an `Outcome`: `ok`/`err` carry the
  resulting state (Rust mutates `&mut self`; on `Err` the state is whatever
  the method left behind, which matters on one path), while the two panic
  sources — the `expect` on the account lookup and the `assert!` on
  `held >= 0` — are distinct outcomes carrying no state.
-/

abbrev ClientID := Nat

abbrev TransactionID := Nat

abbrev Amount := Rat

/-- `enum TransferType { Deposit, Withdrawal }` from src/lib.rs. -/
inductive TransferType
  | deposit
  | withdrawal
deriving DecidableEq, Repr

/-- `struct Transfer` from src/lib.rs: a funds-moving record. -/
structure Transfer where
  transfer_type : TransferType
  client_id : ClientID
  transaction_id : TransactionID
  amount : Amount
deriving DecidableEq, Repr

/-- `enum AmendmentType { Dispute, Resolve, Chargeback }` from src/lib.rs. -/
inductive AmendmentType
  | dispute
  | resolve
  | chargeback
deriving DecidableEq, Repr

/-- `struct Amendment` from src/lib.rs: a dispute-lifecycle record. -/
structure Amendment where
  amendment_type : AmendmentType
  client_id : ClientID
  transaction_id : TransactionID
deriving DecidableEq, Repr

/-- `enum Transaction` from src/lib.rs: a classified record. -/
inductive Transaction
  | transfer (t : Transfer)
  | amendment (a : Amendment)
deriving DecidableEq, Repr

/-- `enum ProcessingError` from src/lib.rs. -/
inductive ProcessingError
  | TransferOnLockedAccount
  | NotEnoughMoneyForWithdrawal
  | TryingToDisputeUnknownTransaction
  | WrongClientInDispute
  | TransferIsAlreadyInDispute
  | ResolvedTransferWasNotInDispute
  | ChargedBackTransferWasNotInDispute
  | DisputingAlreadyChargedBackTransfer
  | TransactionIdAlreadyExists
deriving DecidableEq, Repr

/-- `InputFormatError` from src/lib.rs (the `CsvError` payload is opaque
decoding machinery outside the classifier and is not modelled). -/
inductive InputFormatError
  | MissingAmount
  | NegativeAmount
  | CsvError
deriving DecidableEq, Repr

/-- `struct Account` from src/lib.rs. `Default` gives zero balances,
unlocked. -/
structure Account where
  available : Amount
  held : Amount
  locked : Bool
deriving DecidableEq, Repr

instance : Inhabited Account := ⟨{ available := 0, held := 0, locked := false }⟩

/-- `Account::total` from src/lib.rs. -/
def Account.total (a : Account) : Amount :=
  a.available + a.held

/-- Association-list model of `HashMap::get` (keyed lookup). -/
def mapLookup {β : Type} : List (Nat × β) → Nat → Option β
  | [], _ => none
  | (k', v') :: rest, k => if k' = k then some v' else mapLookup rest k

/-- Association-list model of `HashMap::insert` (replace an existing binding,
otherwise add one). -/
def mapInsert {β : Type} : List (Nat × β) → Nat → β → List (Nat × β)
  | [], k, v => [(k, v)]
  | (k', v') :: rest, k, v =>
    if k' = k then (k, v) :: rest else (k', v') :: mapInsert rest k v

/-- Model of `HashSet::insert`: returns whether the value was newly inserted,
together with the updated set. -/
def setInsert (s : List Nat) (t : Nat) : Bool × List Nat :=
  if t ∈ s then (false, s) else (true, t :: s)

/-- Removal of one occurrence of `t` (the sets never hold duplicates). -/
def setErase : List Nat → Nat → List Nat
  | [], _ => []
  | x :: rest, t => if x = t then rest else x :: setErase rest t

/-- Model of `HashSet::remove`: returns whether the value was present,
together with the updated set. -/
def setRemove (s : List Nat) (t : Nat) : Bool × List Nat :=
  if t ∈ s then (true, setErase s t) else (false, s)

/-- `struct TransactionProcessor` from src/lib.rs: the whole ledger state. -/
structure TransactionProcessor where
  accounts : List (ClientID × Account)
  transfers : List (TransactionID × Transfer)
  in_dispute : List TransactionID
  charged_back : List TransactionID
deriving DecidableEq, Repr

/-- `TransactionProcessor::default()`: the empty ledger. -/
def emptyProcessor : TransactionProcessor :=
  { accounts := [], transfers := [], in_dispute := [], charged_back := [] }

/-- Result of one `process` call. `ok`/`err` carry the state the method left
behind; the `expect` on the account lookup (line 331) and the
`assert!(held >= 0)` (line 364) are panics, modelled as distinct outcomes. -/
inductive Outcome
  | ok (s : TransactionProcessor)
  | err (e : ProcessingError) (s : TransactionProcessor)
  | panicExpect
  | panicAssert
deriving DecidableEq, Repr

/-- The shared tail of the three amendment arms in
`TransactionProcessor::process`: `assert!(client_account.held >= 0)` then
`self.accounts.insert(amendment.client_id, client_account)`. -/
def commitAmendment (s : TransactionProcessor) (c : ClientID) (ca : Account) :
    Outcome :=
  if ca.held < 0 then .panicAssert
  else .ok { s with accounts := mapInsert s.accounts c ca }

/-- `TransactionProcessor::process` from src/lib.rs, line for line. -/
def TransactionProcessor.process (s : TransactionProcessor)
    (transaction : Transaction) : Outcome :=
  match transaction with
  | .transfer transfer =>
    if (mapLookup s.transfers transfer.transaction_id).isSome then
      .err .TransactionIdAlreadyExists s
    else
      let client_account := (mapLookup s.accounts transfer.client_id).getD default
      if client_account.locked then
        .err .TransferOnLockedAccount s
      else
        match transfer.transfer_type with
        | .deposit =>
          let ca := { client_account with
                      available := client_account.available + transfer.amount }
          .ok { s with
                accounts := mapInsert s.accounts transfer.client_id ca,
                transfers := mapInsert s.transfers transfer.transaction_id transfer }
        | .withdrawal =>
          if client_account.available ≥ transfer.amount then
            let ca := { client_account with
                        available := client_account.available - transfer.amount }
            .ok { s with
                  accounts := mapInsert s.accounts transfer.client_id ca,
                  transfers := mapInsert s.transfers transfer.transaction_id transfer }
          else
            .err .NotEnoughMoneyForWithdrawal s
  | .amendment amendment =>
    match mapLookup s.transfers amendment.transaction_id with
    | none => .err .TryingToDisputeUnknownTransaction s
    | some transfer =>
      if transfer.client_id ≠ amendment.client_id then
        .err .WrongClientInDispute s
      else
        match mapLookup s.accounts amendment.client_id with
        | none => .panicExpect
        | some client_account =>
          match amendment.amendment_type with
          | .dispute =>
            let ins := setInsert s.in_dispute amendment.transaction_id
            if ins.1 = false then
              .err .TransferIsAlreadyInDispute s
            else
              -- `self.in_dispute.insert` has already run: the early return
              -- below leaves the inserted id behind.
              let s1 := { s with in_dispute := ins.2 }
              if amendment.transaction_id ∈ s.charged_back then
                .err .DisputingAlreadyChargedBackTransfer s1
              else
                let ca := { client_account with
                            available := client_account.available - transfer.amount,
                            held := client_account.held + transfer.amount }
                commitAmendment s1 amendment.client_id ca
          | .resolve =>
            let rem := setRemove s.in_dispute amendment.transaction_id
            if rem.1 = false then
              .err .ResolvedTransferWasNotInDispute s
            else
              let s1 := { s with in_dispute := rem.2 }
              let ca := { client_account with
                          available := client_account.available + transfer.amount,
                          held := client_account.held - transfer.amount }
              commitAmendment s1 amendment.client_id ca
          | .chargeback =>
            let rem := setRemove s.in_dispute amendment.transaction_id
            if rem.1 = false then
              .err .ChargedBackTransferWasNotInDispute s
            else
              let ca := { client_account with
                          held := client_account.held - transfer.amount,
                          locked := true }
              let s1 := { s with
                          in_dispute := rem.2,
                          charged_back :=
                            (setInsert s.charged_back amendment.transaction_id).2 }
              commitAmendment s1 amendment.client_id ca

/-- Run a batch: processing errors drop the record and continue (§6 of the
design: a rejected record never aborts the batch); a panic aborts. -/
def run : TransactionProcessor → List Transaction → Option TransactionProcessor
  | s, [] => some s
  | s, tx :: rest =>
    match s.process tx with
    | .ok s' => run s' rest
    | .err _ s' => run s' rest
    | .panicExpect => none
    | .panicAssert => none

/-- States reachable from the empty processor by some batch that never
panicked along the way. -/
def Reachable (s : TransactionProcessor) : Prop :=
  ∃ txs, run emptyProcessor txs = some s

/-- `enum TransactionType` from src/lib.rs: the loosely-typed kind tag of a
raw row. -/
inductive TransactionType
  | transfer (t : TransferType)
  | amendment (a : AmendmentType)
deriving DecidableEq, Repr

/-- `struct RawTransaction` from src/lib.rs: a structurally decoded row. -/
structure RawTransaction where
  transaction_type : TransactionType
  client_id : ClientID
  transaction_id : TransactionID
  amount : Option Amount
deriving DecidableEq, Repr

/-- `TryFrom<RawTransaction> for Transaction` from src/lib.rs: the record
classifier (the `warn!` on a superfluous amount is a log line, not state). -/
def Transaction.tryFrom (transaction : RawTransaction) :
    Except InputFormatError Transaction :=
  match transaction.transaction_type with
  | .amendment amendment_type =>
    .ok (.amendment
      { amendment_type,
        client_id := transaction.client_id,
        transaction_id := transaction.transaction_id })
  | .transfer transfer_type =>
    match transaction.amount with
    | some amount =>
      if amount < 0 then
        .error .NegativeAmount
      else
        .ok (.transfer
          { transfer_type,
            amount,
            client_id := transaction.client_id,
            transaction_id := transaction.transaction_id })
    | none => .error .MissingAmount

/-! ### Lemmas about the map and set primitives -/

theorem mapLookup_mapInsert {β : Type} (m : List (Nat × β)) (k : Nat) (v : β)
    (k' : Nat) :
    mapLookup (mapInsert m k v) k' = if k = k' then some v else mapLookup m k' := by
  induction m with
  | nil => simp [mapInsert, mapLookup]
  | cons p rest ih =>
    obtain ⟨k0, v0⟩ := p
    by_cases h0 : k0 = k
    · subst h0
      simp only [mapInsert, if_pos rfl, mapLookup]
      by_cases h1 : k0 = k' <;> simp [h1]
    · simp only [mapInsert, if_neg h0, mapLookup, ih]
      by_cases h1 : k0 = k'
      · subst h1
        simp [Ne.symm h0]
      · simp [h1]

theorem mapLookup_mapInsert_self {β : Type} (m : List (Nat × β)) (k : Nat)
    (v : β) : mapLookup (mapInsert m k v) k = some v := by
  simp [mapLookup_mapInsert]

theorem mapLookup_mapInsert_ne {β : Type} (m : List (Nat × β)) (k : Nat)
    (v : β) (k' : Nat) (h : k ≠ k') :
    mapLookup (mapInsert m k v) k' = mapLookup m k' := by
  simp [mapLookup_mapInsert, h]

theorem isSome_mapLookup_mapInsert {β : Type} (m : List (Nat × β)) (k : Nat)
    (v : β) (k' : Nat) (h : (mapLookup m k').isSome) :
    (mapLookup (mapInsert m k v) k').isSome := by
  rw [mapLookup_mapInsert]
  by_cases hk : k = k' <;> simp [hk, h]

theorem mem_setInsert_snd (s : List Nat) (t a : Nat) :
    a ∈ (setInsert s t).2 ↔ a ∈ s ∨ a = t := by
  unfold setInsert
  by_cases h : t ∈ s
  · simp only [if_pos h]
    constructor
    · exact Or.inl
    · rintro (ha | rfl)
      · exact ha
      · exact h
  · simp only [if_neg h, List.mem_cons]
    tauto

theorem mem_setErase (s : List Nat) (t a : Nat) (h : a ∈ setErase s t) :
    a ∈ s := by
  induction s with
  | nil => simp [setErase] at h
  | cons x rest ih =>
    unfold setErase at h
    by_cases hx : x = t
    · simp only [if_pos hx] at h
      exact List.mem_cons_of_mem _ h
    · simp only [if_neg hx, List.mem_cons] at h
      rcases h with rfl | h
      · exact List.mem_cons_self _ _
      · exact List.mem_cons_of_mem _ (ih h)

theorem mem_setRemove_snd (s : List Nat) (t a : Nat)
    (h : a ∈ (setRemove s t).2) : a ∈ s := by
  unfold setRemove at h
  by_cases ht : t ∈ s
  · simp only [if_pos ht] at h
    exact mem_setErase s t a h
  · simpa [if_neg ht] using h

theorem setInsert_fst_iff (s : List Nat) (t : Nat) :
    (setInsert s t).1 = true ↔ t ∉ s := by
  unfold setInsert
  by_cases h : t ∈ s <;> simp [h]

theorem setRemove_fst_iff (s : List Nat) (t : Nat) :
    (setRemove s t).1 = true ↔ t ∈ s := by
  unfold setRemove
  by_cases h : t ∈ s <;> simp [h]

/-! ### Inversion lemmas for `process` -/

/-- Forward lemma: a `Transfer` whose transaction id is already in the store
is rejected outright, state untouched. -/
theorem process_transfer_dup (s : TransactionProcessor) (tr : Transfer)
    (h : (mapLookup s.transfers tr.transaction_id).isSome) :
    s.process (.transfer tr) = .err .TransactionIdAlreadyExists s := by
  unfold TransactionProcessor.process
  simp [h]

/-- Forward lemma: a fresh-id `Transfer` on a locked account is rejected with
`TransferOnLockedAccount`, state untouched. -/
theorem process_transfer_locked (s : TransactionProcessor) (tr : Transfer)
    (hd : mapLookup s.transfers tr.transaction_id = none)
    (hl : ((mapLookup s.accounts tr.client_id).getD default).locked = true) :
    s.process (.transfer tr) = .err .TransferOnLockedAccount s := by
  unfold TransactionProcessor.process
  simp [hd, hl]

set_option maxHeartbeats 1000000 in
theorem process_err_inv (s : TransactionProcessor) (tx : Transaction)
    (e : ProcessingError) (s' : TransactionProcessor)
    (h : s.process tx = .err e s') :
    s'.accounts = s.accounts ∧ s'.transfers = s.transfers ∧
    s'.charged_back = s.charged_back ∧
    (s'.in_dispute = s.in_dispute ∨
      ∃ t, t ∈ s.charged_back ∧ s'.in_dispute = t :: s.in_dispute) := by
  cases tx with
  | transfer tr =>
    simp only [TransactionProcessor.process] at h
    split at h
    · cases h
      simp
    · split at h
      · cases h
        simp
      · split at h
        · cases h
        · split at h
          · cases h
          · cases h
            simp
  | amendment am =>
    simp only [TransactionProcessor.process] at h
    split at h
    · cases h
      simp
    · split at h
      · cases h
        simp
      · split at h
        · cases h
        · split at h
          · -- dispute
            split at h
            · cases h
              simp
            · split at h
              · rename_i hins hcb
                cases h
                refine ⟨rfl, rfl, rfl, Or.inr ⟨am.transaction_id, hcb, ?_⟩⟩
                have hnotmem : am.transaction_id ∉ s.in_dispute := by
                  rw [← setInsert_fst_iff]
                  simpa using hins
                unfold setInsert
                simp [hnotmem]
              · unfold commitAmendment at h
                split at h
                · cases h
                · cases h
          · -- resolve
            split at h
            · cases h
              simp
            · unfold commitAmendment at h
              split at h
              · cases h
              · cases h
          · -- chargeback
            split at h
            · cases h
              simp
            · unfold commitAmendment at h
              split at h
              · cases h
              · cases h

/-- Inversion of a successful `Transfer`. -/
theorem process_transfer_ok_inv (s : TransactionProcessor) (tr : Transfer)
    (s1 : TransactionProcessor) (h : s.process (.transfer tr) = .ok s1) :
    mapLookup s.transfers tr.transaction_id = none ∧
    ((mapLookup s.accounts tr.client_id).getD default).locked = false ∧
    s1.in_dispute = s.in_dispute ∧ s1.charged_back = s.charged_back ∧
    s1.transfers = mapInsert s.transfers tr.transaction_id tr ∧
    ∃ ca0, ca0 = (mapLookup s.accounts tr.client_id).getD default ∧
      ((tr.transfer_type = .deposit ∧
          s1.accounts = mapInsert s.accounts tr.client_id
            { ca0 with available := ca0.available + tr.amount }) ∨
       (tr.transfer_type = .withdrawal ∧ ca0.available ≥ tr.amount ∧
          s1.accounts = mapInsert s.accounts tr.client_id
            { ca0 with available := ca0.available - tr.amount })) := by
  simp only [TransactionProcessor.process] at h
  split at h
  · cases h
  · rename_i hdup
    split at h
    · cases h
    · rename_i hlock
      split at h
      · -- deposit
        rename_i hty
        cases h
        refine ⟨by simpa using hdup, by simpa using hlock, rfl, rfl, rfl,
          (mapLookup s.accounts tr.client_id).getD default, rfl, Or.inl ⟨hty, rfl⟩⟩
      · -- withdrawal
        rename_i hty
        split at h
        · rename_i hge
          cases h
          exact ⟨by simpa using hdup, by simpa using hlock, rfl, rfl, rfl,
            (mapLookup s.accounts tr.client_id).getD default, rfl,
            Or.inr ⟨hty, hge, rfl⟩⟩
        · cases h

/-- Inversion of a successful `Dispute`. -/
theorem process_dispute_ok_inv (s : TransactionProcessor) (c t : Nat)
    (s1 : TransactionProcessor)
    (h : s.process (.amendment ⟨.dispute, c, t⟩) = .ok s1) :
    ∃ tr ca, mapLookup s.transfers t = some tr ∧ tr.client_id = c ∧
      mapLookup s.accounts c = some ca ∧ t ∉ s.in_dispute ∧
      t ∉ s.charged_back ∧ 0 ≤ ca.held + tr.amount ∧
      s1 = { s with
             accounts := mapInsert s.accounts c
               { ca with available := ca.available - tr.amount,
                         held := ca.held + tr.amount },
             in_dispute := t :: s.in_dispute } := by
  simp only [TransactionProcessor.process] at h
  split at h
  · cases h
  · rename_i tr hlook
    split at h
    · cases h
    · rename_i hcl
      split at h
      · cases h
      · rename_i ca hacc
        split at h
        · cases h
        · rename_i hins
          split at h
          · cases h
          · rename_i hcb
            unfold commitAmendment at h
            split at h
            · cases h
            · rename_i hheld
              cases h
              have hnotmem : t ∉ s.in_dispute := by
                rw [← setInsert_fst_iff]
                simpa using hins
              refine ⟨tr, ca, hlook, by simpa using hcl, hacc, hnotmem, hcb,
                by simpa using not_lt.mp hheld, ?_⟩
              unfold setInsert
              simp [hnotmem]

/-- Inversion of a successful `Resolve`. -/
theorem process_resolve_ok_inv (s : TransactionProcessor) (c t : Nat)
    (s1 : TransactionProcessor)
    (h : s.process (.amendment ⟨.resolve, c, t⟩) = .ok s1) :
    ∃ tr ca, mapLookup s.transfers t = some tr ∧ tr.client_id = c ∧
      mapLookup s.accounts c = some ca ∧ t ∈ s.in_dispute ∧
      0 ≤ ca.held - tr.amount ∧
      s1 = { s with
             accounts := mapInsert s.accounts c
               { ca with available := ca.available + tr.amount,
                         held := ca.held - tr.amount },
             in_dispute := setErase s.in_dispute t } := by
  simp only [TransactionProcessor.process] at h
  split at h
  · cases h
  · rename_i tr hlook
    split at h
    · cases h
    · rename_i hcl
      split at h
      · cases h
      · rename_i ca hacc
        split at h
        · cases h
        · rename_i hrem
          unfold commitAmendment at h
          split at h
          · cases h
          · rename_i hheld
            cases h
            have hmem : t ∈ s.in_dispute := by
              rw [← setRemove_fst_iff]
              simpa using hrem
            refine ⟨tr, ca, hlook, by simpa using hcl, hacc, hmem,
              by simpa using not_lt.mp hheld, ?_⟩
            unfold setRemove
            simp [hmem]

/-- Inversion of a successful `Chargeback`. -/
theorem process_chargeback_ok_inv (s : TransactionProcessor) (c t : Nat)
    (s1 : TransactionProcessor)
    (h : s.process (.amendment ⟨.chargeback, c, t⟩) = .ok s1) :
    ∃ tr ca, mapLookup s.transfers t = some tr ∧ tr.client_id = c ∧
      mapLookup s.accounts c = some ca ∧ t ∈ s.in_dispute ∧
      0 ≤ ca.held - tr.amount ∧
      s1 = { s with
             accounts := mapInsert s.accounts c
               { ca with held := ca.held - tr.amount, locked := true },
             in_dispute := setErase s.in_dispute t,
             charged_back := (setInsert s.charged_back t).2 } := by
  simp only [TransactionProcessor.process] at h
  split at h
  · cases h
  · rename_i tr hlook
    split at h
    · cases h
    · rename_i hcl
      split at h
      · cases h
      · rename_i ca hacc
        split at h
        · cases h
        · rename_i hrem
          unfold commitAmendment at h
          split at h
          · cases h
          · rename_i hheld
            cases h
            have hmem : t ∈ s.in_dispute := by
              rw [← setRemove_fst_iff]
              simpa using hrem
            refine ⟨tr, ca, hlook, by simpa using hcl, hacc, hmem,
              by simpa using not_lt.mp hheld, ?_⟩
            unfold setRemove
            simp [hmem]

/-- Generic inversion of a successful amendment: the transfer store is
untouched, exactly the amendment's client's account is rewritten (with
non-negative `held`, and the lock never cleared), and the charged-back set
only grows. -/
theorem process_amendment_ok_inv (s : TransactionProcessor) (am : Amendment)
    (s1 : TransactionProcessor) (h : s.process (.amendment am) = .ok s1) :
    ∃ ca ca', mapLookup s.accounts am.client_id = some ca ∧
      0 ≤ ca'.held ∧ (ca.locked = true → ca'.locked = true) ∧
      s1.transfers = s.transfers ∧
      s1.accounts = mapInsert s.accounts am.client_id ca' ∧
      ∀ x, x ∈ s.charged_back → x ∈ s1.charged_back := by
  obtain ⟨ty, c, t⟩ := am
  cases ty with
  | dispute =>
    obtain ⟨tr, ca, _, _, hacc, _, _, hheld, rfl⟩ :=
      process_dispute_ok_inv s c t s1 h
    exact ⟨ca, { ca with available := ca.available - tr.amount,
                         held := ca.held + tr.amount },
      hacc, hheld, fun hl => hl, rfl, rfl, fun x hx => hx⟩
  | resolve =>
    obtain ⟨tr, ca, _, _, hacc, _, hheld, rfl⟩ :=
      process_resolve_ok_inv s c t s1 h
    exact ⟨ca, { ca with available := ca.available + tr.amount,
                         held := ca.held - tr.amount },
      hacc, hheld, fun hl => hl, rfl, rfl, fun x hx => hx⟩
  | chargeback =>
    obtain ⟨tr, ca, _, _, hacc, _, hheld, rfl⟩ :=
      process_chargeback_ok_inv s c t s1 h
    refine ⟨ca, { ca with held := ca.held - tr.amount, locked := true },
      hacc, hheld, fun _ => rfl, rfl, rfl, fun x hx => ?_⟩
    simp only [mem_setInsert_snd]
    exact Or.inl hx

/-- A property preserved by every non-panicking `process` step is preserved
by every non-panicking batch. -/
theorem run_preserve (P : TransactionProcessor → Prop)
    (hok : ∀ s tx s1, P s → s.process tx = .ok s1 → P s1)
    (herr : ∀ s tx e s1, P s → s.process tx = .err e s1 → P s1) :
    ∀ txs s s', P s → run s txs = some s' → P s' := by
  intro txs
  induction txs with
  | nil =>
    intro s s' hP hr
    unfold run at hr
    cases hr
    exact hP
  | cons tx rest ih =>
    intro s s' hP hr
    unfold run at hr
    cases hp : s.process tx with
    | ok s1 =>
      rw [hp] at hr
      exact ih s1 s' (hok s tx s1 hP hp) hr
    | err e s1 =>
      rw [hp] at hr
      exact ih s1 s' (herr s tx e s1 hP hp) hr
    | panicExpect => rw [hp] at hr; cases hr
    | panicAssert => rw [hp] at hr; cases hr

/-- A transaction id present in the transfer store stays present across any
non-panicking batch (transfers are retained indefinitely). -/
theorem run_transfers_isSome (tid : TransactionID) (txs : List Transaction)
    (s s' : TransactionProcessor) (hr : run s txs = some s')
    (hP : (mapLookup s.transfers tid).isSome) :
    (mapLookup s'.transfers tid).isSome := by
  refine run_preserve (fun s0 => (mapLookup s0.transfers tid).isSome)
    ?_ ?_ txs s s' hP hr
  · intro s0 tx s1 hP0 hp
    cases tx with
    | transfer tr =>
      obtain ⟨_, _, _, _, htr, _⟩ := process_transfer_ok_inv s0 tr s1 hp
      rw [htr]
      exact isSome_mapLookup_mapInsert _ _ _ _ hP0
    | amendment am =>
      obtain ⟨ca, ca', _, _, _, htr, _, _⟩ := process_amendment_ok_inv s0 am s1 hp
      rw [htr]
      exact hP0
  · intro s0 tx e s1 hP0 hp
    obtain ⟨_, htr, _, _⟩ := process_err_inv s0 tx e s1 hp
    rw [htr]
    exact hP0

/-- A charged-back transaction id stays charged back across any non-panicking
batch (nothing ever removes from the charged-back set). -/
theorem run_charged_back_mem (t : TransactionID) (txs : List Transaction)
    (s s' : TransactionProcessor) (hr : run s txs = some s')
    (hP : t ∈ s.charged_back) : t ∈ s'.charged_back := by
  refine run_preserve (fun s0 => t ∈ s0.charged_back) ?_ ?_ txs s s' hP hr
  · intro s0 tx s1 hP0 hp
    cases tx with
    | transfer tr =>
      obtain ⟨_, _, _, hcb, _, _⟩ := process_transfer_ok_inv s0 tr s1 hp
      rw [hcb]
      exact hP0
    | amendment am =>
      obtain ⟨ca, ca', _, _, _, _, _, hcb⟩ := process_amendment_ok_inv s0 am s1 hp
      exact hcb t hP0
  · intro s0 tx e s1 hP0 hp
    obtain ⟨_, _, hcb, _⟩ := process_err_inv s0 tx e s1 hp
    rw [hcb]
    exact hP0

/-- Once an account is locked, it stays locked (and present) across any
non-panicking batch. -/
theorem run_lock_persists (c : ClientID) (txs : List Transaction)
    (s s' : TransactionProcessor) (hr : run s txs = some s')
    (hP : ∃ a, mapLookup s.accounts c = some a ∧ a.locked = true) :
    ∃ a', mapLookup s'.accounts c = some a' ∧ a'.locked = true := by
  refine run_preserve
    (fun s0 => ∃ a, mapLookup s0.accounts c = some a ∧ a.locked = true)
    ?_ ?_ txs s s' hP hr
  · intro s0 tx s1 hP0 hp
    obtain ⟨a, ha, hl⟩ := hP0
    cases tx with
    | transfer tr =>
      obtain ⟨_, hlock, _, _, _, ca0, hca0, hcases⟩ :=
        process_transfer_ok_inv s0 tr s1 hp
      by_cases hc : tr.client_id = c
      · subst hc
        rw [ha] at hlock
        simp only [Option.getD_some] at hlock
        rw [hl] at hlock
        cases hlock
      · rcases hcases with ⟨_, haccs⟩ | ⟨_, _, haccs⟩ <;>
          · rw [haccs, mapLookup_mapInsert_ne _ _ _ _ hc]
            exact ⟨a, ha, hl⟩
    | amendment am =>
      obtain ⟨ca, ca', hca, _, hlk, _, haccs, _⟩ :=
        process_amendment_ok_inv s0 am s1 hp
      by_cases hc : am.client_id = c
      · subst hc
        rw [ha] at hca
        cases hca
        rw [haccs, mapLookup_mapInsert_self]
        exact ⟨ca', rfl, hlk hl⟩
      · rw [haccs, mapLookup_mapInsert_ne _ _ _ _ hc]
        exact ⟨a, ha, hl⟩
  · intro s0 tx e s1 hP0 hp
    obtain ⟨haccs, _, _, _⟩ := process_err_inv s0 tx e s1 hp
    rw [haccs]
    exact hP0

/-- Account invariant carried by every reachable state: `held` is never
negative. -/
def HeldInv (s : TransactionProcessor) : Prop :=
  ∀ c a, mapLookup s.accounts c = some a → 0 ≤ a.held

/-- Store invariant carried by every reachable state: every stored `Transfer`
has an account entry for its owning client. -/
def AccountInv (s : TransactionProcessor) : Prop :=
  ∀ tid tr, mapLookup s.transfers tid = some tr →
    (mapLookup s.accounts tr.client_id).isSome

theorem heldInv_run (txs : List Transaction) (s s' : TransactionProcessor)
    (hr : run s txs = some s') (hP : HeldInv s) : HeldInv s' := by
  refine run_preserve HeldInv ?_ ?_ txs s s' hP hr
  · intro s0 tx s1 hP0 hp
    cases tx with
    | transfer tr =>
      obtain ⟨_, _, _, _, _, ca0, hca0, hcases⟩ :=
        process_transfer_ok_inv s0 tr s1 hp
      have hheld0 : 0 ≤ ca0.held := by
        rw [hca0]
        cases hacc : mapLookup s0.accounts tr.client_id with
        | none => simp [default]
        | some a0 => simpa using hP0 tr.client_id a0 hacc
      intro c a hc
      rcases hcases with ⟨_, haccs⟩ | ⟨_, _, haccs⟩ <;>
        · rw [haccs, mapLookup_mapInsert] at hc
          by_cases hcc : tr.client_id = c
          · rw [if_pos hcc] at hc
            cases hc
            exact hheld0
          · rw [if_neg hcc] at hc
            exact hP0 c a hc
    | amendment am =>
      obtain ⟨ca, ca', _, hheld, _, _, haccs, _⟩ :=
        process_amendment_ok_inv s0 am s1 hp
      intro c a hc
      rw [haccs, mapLookup_mapInsert] at hc
      by_cases hcc : am.client_id = c
      · rw [if_pos hcc] at hc
        cases hc
        exact hheld
      · rw [if_neg hcc] at hc
        exact hP0 c a hc
  · intro s0 tx e s1 hP0 hp
    obtain ⟨haccs, _, _, _⟩ := process_err_inv s0 tx e s1 hp
    intro c a hc
    rw [haccs] at hc
    exact hP0 c a hc

theorem accountInv_run (txs : List Transaction) (s s' : TransactionProcessor)
    (hr : run s txs = some s') (hP : AccountInv s) : AccountInv s' := by
  refine run_preserve AccountInv ?_ ?_ txs s s' hP hr
  · intro s0 tx s1 hP0 hp
    cases tx with
    | transfer tr =>
      obtain ⟨_, _, _, _, htrs, ca0, hca0, hcases⟩ :=
        process_transfer_ok_inv s0 tr s1 hp
      intro tid tr0 htid
      rw [htrs, mapLookup_mapInsert] at htid
      rcases hcases with ⟨_, haccs1⟩ | ⟨_, _, haccs1⟩ <;>
        · rw [haccs1]
          by_cases hdt : tr.transaction_id = tid
          · rw [if_pos hdt] at htid
            cases htid
            rw [mapLookup_mapInsert_self]
            rfl
          · rw [if_neg hdt] at htid
            exact isSome_mapLookup_mapInsert _ _ _ _ (hP0 tid tr0 htid)
    | amendment am =>
      obtain ⟨ca, ca', _, _, _, htrs, haccs, _⟩ :=
        process_amendment_ok_inv s0 am s1 hp
      intro tid tr0 htid
      rw [htrs] at htid
      rw [haccs]
      exact isSome_mapLookup_mapInsert _ _ _ _ (hP0 tid tr0 htid)
  · intro s0 tx e s1 hP0 hp
    obtain ⟨haccs, htrs, _, _⟩ := process_err_inv s0 tx e s1 hp
    intro tid tr0 htid
    rw [htrs] at htid
    rw [haccs]
    exact hP0 tid tr0 htid

theorem heldInv_reachable (s : TransactionProcessor) (h : Reachable s) :
    HeldInv s := by
  obtain ⟨txs, hr⟩ := h
  refine heldInv_run txs emptyProcessor s hr ?_
  intro c a hc
  cases hc

theorem accountInv_reachable (s : TransactionProcessor) (h : Reachable s) :
    AccountInv s := by
  obtain ⟨txs, hr⟩ := h
  refine accountInv_run txs emptyProcessor s hr ?_
  intro tid tr htid
  cases htid

/-- A `Dispute` on a transaction id already in the charged-back set never
succeeds (it is rejected before the account is touched). -/
theorem dispute_not_ok_of_charged_back (s : TransactionProcessor)
    (c t : Nat) (ht : t ∈ s.charged_back) (s1 : TransactionProcessor) :
    s.process (.amendment ⟨.dispute, c, t⟩) ≠ .ok s1 := by
  intro h
  obtain ⟨tr, ca, _, _, _, _, hcb, _, _⟩ := process_dispute_ok_inv s c t s1 h
  exact hcb ht

/-! ### Concrete records and states used in evaluations -/

theorem default_account :
    (default : Account) = { available := 0, held := 0, locked := false } := rfl

def depositTx (c t : Nat) (a : Amount) : Transaction :=
  .transfer { transfer_type := .deposit, client_id := c, transaction_id := t,
              amount := a }

def withdrawalTx (c t : Nat) (a : Amount) : Transaction :=
  .transfer { transfer_type := .withdrawal, client_id := c, transaction_id := t,
              amount := a }

def disputeTx (c t : Nat) : Transaction :=
  .amendment { amendment_type := .dispute, client_id := c, transaction_id := t }

def resolveTx (c t : Nat) : Transaction :=
  .amendment { amendment_type := .resolve, client_id := c, transaction_id := t }

def chargebackTx (c t : Nat) : Transaction :=
  .amendment { amendment_type := .chargeback, client_id := c, transaction_id := t }

/-- The ledger after deposit(client 1, tx 1, 5); dispute(1, 1);
chargeback(1, 1): account emptied and locked, tx 1 charged back. -/
def procAfterCB : TransactionProcessor :=
  { accounts := [(1, { available := 0, held := 0, locked := true })],
    transfers := [(1, { transfer_type := .deposit, client_id := 1,
                        transaction_id := 1, amount := 5 })],
    in_dispute := [], charged_back := [1] }

/-- `procAfterCB` after a further dispute(1, 1) was rejected with
`DisputingAlreadyChargedBackTransfer`: the rejected id stays in the
dispute set. -/
def procAfterBadDispute : TransactionProcessor :=
  { procAfterCB with in_dispute := [1] }

/-! ### The claims -/

/-- C1: the claim says that whenever `process` returns a processing error the
ledger's observable state is exactly what it was before the call, in
particular for a `Dispute` rejected with `DisputingAlreadyChargedBackTransfer`.
The code violates this: on that very path `in_dispute.insert` has already run
and is not compensated, so the rejected transaction id stays in the dispute
set. This theorem evaluates the code on the four-record batch that exhibits
the divergence. -/
theorem C1_dispute_error_leaves_id_in_dispute_set :
    run emptyProcessor [depositTx 1 1 5, disputeTx 1 1, chargebackTx 1 1] =
      some procAfterCB ∧
    procAfterCB.process (disputeTx 1 1) =
      .err .DisputingAlreadyChargedBackTransfer procAfterBadDispute ∧
    procAfterBadDispute ≠ procAfterCB ∧
    1 ∈ procAfterBadDispute.in_dispute ∧ ¬ 1 ∈ procAfterCB.in_dispute := by
  refine ⟨?_, ?_, ?_, ?_, ?_⟩
  · norm_num [run, TransactionProcessor.process, depositTx, disputeTx,
      chargebackTx, default_account, mapLookup, mapInsert, setInsert, setRemove,
      setErase, commitAmendment, emptyProcessor, procAfterCB]
  · norm_num [TransactionProcessor.process, disputeTx, mapLookup, setInsert,
      commitAmendment, procAfterCB, procAfterBadDispute]
  · intro h
    have : procAfterBadDispute.in_dispute = procAfterCB.in_dispute := by rw [h]
    simp [procAfterBadDispute, procAfterCB] at this
  · simp [procAfterBadDispute, procAfterCB]
  · simp [procAfterCB]

/-- C2: the claim states the invariant that every id in the dispute set has
not been charged back, in every reachable state. The code violates it: after
deposit; dispute; chargeback; dispute (the last rejected with
`DisputingAlreadyChargedBackTransfer`, no compensating removal) the reachable
state has tx 1 in both the dispute set and the charged-back set. -/
theorem C2_reachable_dispute_set_contains_charged_back_id :
    run emptyProcessor
      [depositTx 1 1 5, disputeTx 1 1, chargebackTx 1 1, disputeTx 1 1] =
      some procAfterBadDispute ∧
    1 ∈ procAfterBadDispute.in_dispute ∧
    1 ∈ procAfterBadDispute.charged_back := by
  refine ⟨?_, ?_, ?_⟩
  · norm_num [run, TransactionProcessor.process, depositTx, disputeTx,
      chargebackTx, default_account, mapLookup, mapInsert, setInsert, setRemove,
      setErase, commitAmendment, emptyProcessor, procAfterCB,
      procAfterBadDispute]
  · simp [procAfterBadDispute, procAfterCB]
  · simp [procAfterBadDispute, procAfterCB]

/-- C8: classification of a raw row: amendment kinds always succeed and carry
no amount; transfer kinds require an amount (`MissingAmount` otherwise),
reject a negative amount (`NegativeAmount`), and otherwise produce a Transfer
carrying the absolute value of the supplied amount. -/
theorem C8_classifier_behaviour (r : RawTransaction) :
    Transaction.tryFrom r =
      match r.transaction_type with
      | .amendment aty =>
        .ok (.amendment { amendment_type := aty, client_id := r.client_id,
                          transaction_id := r.transaction_id })
      | .transfer tty =>
        match r.amount with
        | none => .error .MissingAmount
        | some a =>
          if a < 0 then .error .NegativeAmount
          else .ok (.transfer { transfer_type := tty, client_id := r.client_id,
                                transaction_id := r.transaction_id,
                                amount := |a| }) := by
  obtain ⟨ty, c, t, am⟩ := r
  cases ty with
  | amendment aty => rfl
  | transfer tty =>
    cases am with
    | none => rfl
    | some a =>
      simp only [Transaction.tryFrom]
      by_cases hneg : a < 0
      · simp [hneg]
      · simp [hneg, abs_of_nonneg (not_lt.mp hneg)]

/-- `process` panics on the account `expect` only in the amendment branch,
after the transfer was found and its owner matched, with no account entry for
that client. -/
theorem process_panicExpect_inv (s : TransactionProcessor) (tx : Transaction)
    (h : s.process tx = .panicExpect) :
    ∃ am tr, tx = .amendment am ∧
      mapLookup s.transfers am.transaction_id = some tr ∧
      tr.client_id = am.client_id ∧
      mapLookup s.accounts am.client_id = none := by
  cases tx with
  | transfer tr =>
    simp only [TransactionProcessor.process] at h
    split at h
    · cases h
    · split at h
      · cases h
      · split at h
        · cases h
        · split at h
          · cases h
          · cases h
  | amendment am =>
    simp only [TransactionProcessor.process] at h
    split at h
    · cases h
    · rename_i tr hlook
      split at h
      · cases h
      · rename_i hcl
        split at h
        · rename_i hacc
          exact ⟨am, tr, rfl, hlook, by simpa using hcl, hacc⟩
        · split at h
          · split at h
            · cases h
            · split at h
              · cases h
              · unfold commitAmendment at h
                split at h <;> cases h
          · split at h
            · cases h
            · unfold commitAmendment at h
              split at h <;> cases h
          · split at h
            · cases h
            · unfold commitAmendment at h
              split at h <;> cases h

/-- The `Transfer` record of deposit(client 1, tx 1, 5). -/
def dep1Transfer : Transfer :=
  { transfer_type := .deposit, client_id := 1, transaction_id := 1, amount := 5 }

/-- The ledger after the single record deposit(client 1, tx 1, 5). -/
def procAfterDeposit : TransactionProcessor :=
  { accounts := [(1, { available := 5, held := 0, locked := false })],
    transfers := [(1, dep1Transfer)],
    in_dispute := [], charged_back := [] }

theorem run_deposit_eval :
    run emptyProcessor [depositTx 1 1 5] = some procAfterDeposit := by
  norm_num [run, TransactionProcessor.process, depositTx, default_account,
    mapLookup, mapInsert, emptyProcessor, procAfterDeposit, dep1Transfer]

/-- C3: in every state reachable without tripping the internal consistency
assertion, every account has non-negative `held`, and the reported `total`
equals `available + held`. -/
theorem C3_held_nonneg_and_total_eq (s : TransactionProcessor)
    (h : Reachable s) (c : ClientID) (a : Account)
    (ha : mapLookup s.accounts c = some a) :
    0 ≤ a.held ∧ a.total = a.available + a.held :=
  ⟨heldInv_reachable s h c a ha, rfl⟩

theorem C3_witness :
    0 ≤ ({ available := 5, held := 0, locked := false } : Account).held ∧
    ({ available := 5, held := 0, locked := false } : Account).total =
      ({ available := 5, held := 0, locked := false } : Account).available +
        ({ available := 5, held := 0, locked := false } : Account).held :=
  C3_held_nonneg_and_total_eq procAfterDeposit
    ⟨[depositTx 1 1 5], run_deposit_eval⟩ 1
    { available := 5, held := 0, locked := false }
    (by simp [procAfterDeposit, mapLookup])

/-- C4: a `Transfer` whose transaction id is already a key of the transfer
store is rejected with `TransactionIdAlreadyExists` (whatever client it
names), the state untouched; and since stored ids persist across any further
non-panicking batch, a Transfer reusing the id of a previously applied one is
rejected forever after. -/
theorem C4_duplicate_transaction_id_always_rejected (s : TransactionProcessor)
    (tr : Transfer) (h : (mapLookup s.transfers tr.transaction_id).isSome) :
    s.process (.transfer tr) = .err .TransactionIdAlreadyExists s ∧
    ∀ txs s', run s txs = some s' →
      s'.process (.transfer tr) = .err .TransactionIdAlreadyExists s' :=
  ⟨process_transfer_dup s tr h,
   fun txs s' hr =>
     process_transfer_dup s' tr
       (run_transfers_isSome tr.transaction_id txs s s' hr h)⟩

/-- A withdrawal by client 2 reusing transaction id 1 (owned by client 1). -/
def trReuse : Transfer :=
  { transfer_type := .withdrawal, client_id := 2, transaction_id := 1,
    amount := 3 }

/-- `procAfterDeposit` after a further deposit(client 2, tx 9, 7). -/
def procC4b : TransactionProcessor :=
  { accounts := [(1, { available := 5, held := 0, locked := false }),
                 (2, { available := 7, held := 0, locked := false })],
    transfers := [(1, dep1Transfer),
                  (9, { transfer_type := .deposit, client_id := 2,
                        transaction_id := 9, amount := 7 })],
    in_dispute := [], charged_back := [] }

theorem C4_witness :
    procAfterDeposit.process (.transfer trReuse) =
      .err .TransactionIdAlreadyExists procAfterDeposit ∧
    procC4b.process (.transfer trReuse) =
      .err .TransactionIdAlreadyExists procC4b :=
  ⟨(C4_duplicate_transaction_id_always_rejected procAfterDeposit trReuse
      (by simp [procAfterDeposit, mapLookup, trReuse])).1,
   (C4_duplicate_transaction_id_always_rejected procAfterDeposit trReuse
      (by simp [procAfterDeposit, mapLookup, trReuse])).2
     [depositTx 2 9 7] procC4b
     (by norm_num [run, TransactionProcessor.process, depositTx,
        default_account, mapLookup, mapInsert, procAfterDeposit, procC4b,
        dep1Transfer, trReuse])⟩

/-- C10: in every reachable state every stored `Transfer` has an account
entry for its owning client, so the `expect` on the account lookup in the
amendment branch can never fire. -/
theorem C10_stored_transfer_owner_has_account (s : TransactionProcessor)
    (h : Reachable s) :
    (∀ tid tr, mapLookup s.transfers tid = some tr →
      (mapLookup s.accounts tr.client_id).isSome) ∧
    ∀ tx, s.process tx ≠ .panicExpect := by
  have hinv := accountInv_reachable s h
  refine ⟨hinv, fun tx hpe => ?_⟩
  obtain ⟨am, tr, rfl, htr, hown, hacc⟩ := process_panicExpect_inv s tx hpe
  have := hinv am.transaction_id tr htr
  rw [hown, hacc] at this
  cases this

theorem C10_witness :
    (mapLookup procAfterDeposit.accounts dep1Transfer.client_id).isSome ∧
    procAfterDeposit.process (disputeTx 1 1) ≠ .panicExpect :=
  ⟨(C10_stored_transfer_owner_has_account procAfterDeposit
      ⟨[depositTx 1 1 5], run_deposit_eval⟩).1 1 dep1Transfer
      (by simp [procAfterDeposit, mapLookup]),
   (C10_stored_transfer_owner_has_account procAfterDeposit
      ⟨[depositTx 1 1 5], run_deposit_eval⟩).2 (disputeTx 1 1)⟩

/-- C5: a fresh-id `Withdrawal` on an unlocked account succeeds exactly when
`available >= amount`, in which case `available` drops by the amount (held
and locked untouched) and the Transfer is recorded; otherwise it is rejected
with `NotEnoughMoneyForWithdrawal` and the whole state is untouched. -/
theorem C5_withdrawal_semantics (s : TransactionProcessor) (tr : Transfer)
    (hty : tr.transfer_type = .withdrawal)
    (hfresh : mapLookup s.transfers tr.transaction_id = none)
    (a : Account) (ha : (mapLookup s.accounts tr.client_id).getD default = a)
    (hl : a.locked = false) :
    (a.available ≥ tr.amount →
      s.process (.transfer tr) = .ok
        { s with
          accounts := mapInsert s.accounts tr.client_id
            { a with available := a.available - tr.amount },
          transfers := mapInsert s.transfers tr.transaction_id tr }) ∧
    (¬ a.available ≥ tr.amount →
      s.process (.transfer tr) = .err .NotEnoughMoneyForWithdrawal s) := by
  subst ha
  constructor <;> intro hge <;>
    simp [TransactionProcessor.process, hfresh, hl, hty, hge]

/-- C6: a successful `Dispute` immediately followed by a successful `Resolve`
on the same transaction id restores the owning client's `available` and
`held` to exactly their pre-dispute values. -/
theorem C6_dispute_then_resolve_restores_balances (s : TransactionProcessor)
    (c c' t : Nat) (s1 s2 : TransactionProcessor)
    (h1 : s.process (.amendment ⟨.dispute, c, t⟩) = .ok s1)
    (h2 : s1.process (.amendment ⟨.resolve, c', t⟩) = .ok s2) :
    ∃ a0 a2, mapLookup s.accounts c = some a0 ∧
      mapLookup s2.accounts c = some a2 ∧
      a2.available = a0.available ∧ a2.held = a0.held := by
  obtain ⟨tr, ca, hlook, hcl, hacc, hnd, hcb, hheld, rfl⟩ :=
    process_dispute_ok_inv s c t s1 h1
  obtain ⟨tr', ca', hlook', hcl', hacc', hmem', hheld', rfl⟩ :=
    process_resolve_ok_inv _ c' t s2 h2
  simp only [] at hlook' hacc'
  rw [hlook] at hlook'
  cases hlook'
  have hc' : c' = c := by rw [← hcl, hcl']
  subst hc'
  rw [mapLookup_mapInsert_self] at hacc'
  cases hacc'
  refine ⟨ca, ?_, hacc, ?ha2, ?hav, ?hh⟩
  case ha2 => exact mapLookup_mapInsert_self _ _ _
  case hav =>
    show ca.available - tr.amount + tr.amount = ca.available
    ring
  case hh =>
    show ca.held + tr.amount - tr.amount = ca.held
    ring

/-- C7: a successful `Dispute` followed by a successful `Chargeback` on the
same id locks the owning account, removes exactly the disputed amount from
its post-dispute `held`, puts the id in the charged-back set, and no
`Dispute` on that id ever succeeds again after any further batch. -/
theorem C7_dispute_then_chargeback_locks_forever (s : TransactionProcessor)
    (c c' t : Nat) (s1 s2 : TransactionProcessor)
    (h1 : s.process (.amendment ⟨.dispute, c, t⟩) = .ok s1)
    (h2 : s1.process (.amendment ⟨.chargeback, c', t⟩) = .ok s2) :
    ∃ tr a1 a2, mapLookup s.transfers t = some tr ∧
      mapLookup s1.accounts tr.client_id = some a1 ∧
      mapLookup s2.accounts tr.client_id = some a2 ∧
      a2.locked = true ∧ a2.held = a1.held - tr.amount ∧
      t ∈ s2.charged_back ∧
      ∀ txs s' c'' s'', run s2 txs = some s' →
        s'.process (.amendment ⟨.dispute, c'', t⟩) ≠ .ok s'' := by
  obtain ⟨tr, ca, hlook, hcl, hacc, hnd, hcb, hheld, rfl⟩ :=
    process_dispute_ok_inv s c t s1 h1
  obtain ⟨tr', ca', hlook', hcl', hacc', hmem', hheld', rfl⟩ :=
    process_chargeback_ok_inv _ c' t s2 h2
  simp only [] at hlook' hacc'
  rw [hlook] at hlook'
  cases hlook'
  have hc' : c' = c := by rw [← hcl, hcl']
  subst hc'
  rw [mapLookup_mapInsert_self] at hacc'
  cases hacc'
  refine ⟨tr, ?_, ?_, hlook, ?h1, ?h2, ?hlock, ?hheld2, ?hmem, ?hforever⟩
  case h1 =>
    rw [hcl]
    exact mapLookup_mapInsert_self _ _ _
  case h2 =>
    rw [hcl]
    exact mapLookup_mapInsert_self _ _ _
  case hlock => rfl
  case hheld2 => rfl
  case hmem =>
    simp only [mem_setInsert_snd]
    exact Or.inr trivial
  case hforever =>
    intro txs s' c'' s'' hr hok
    refine dispute_not_ok_of_charged_back s' c'' t ?_ s'' hok
    refine run_charged_back_mem t txs _ s' hr ?_
    simp only [mem_setInsert_snd]
    exact Or.inr trivial

/-- A withdrawal of 3 (covered) by client 1, fresh transaction id 2. -/
def trW3 : Transfer :=
  { transfer_type := .withdrawal, client_id := 1, transaction_id := 2,
    amount := 3 }

/-- A withdrawal of 9 (not covered) by client 1, fresh transaction id 2. -/
def trW9 : Transfer :=
  { transfer_type := .withdrawal, client_id := 1, transaction_id := 2,
    amount := 9 }

theorem C5_witness :
    procAfterDeposit.process (.transfer trW3) = .ok
      { procAfterDeposit with
        accounts := mapInsert procAfterDeposit.accounts trW3.client_id
          { available := (5:Rat) - 3, held := 0, locked := false },
        transfers := mapInsert procAfterDeposit.transfers trW3.transaction_id
          trW3 } ∧
    procAfterDeposit.process (.transfer trW9) =
      .err .NotEnoughMoneyForWithdrawal procAfterDeposit :=
  ⟨(C5_withdrawal_semantics procAfterDeposit trW3 rfl
      (by simp [procAfterDeposit, mapLookup, trW3, dep1Transfer])
      { available := 5, held := 0, locked := false }
      (by simp [procAfterDeposit, mapLookup, trW3]) rfl).1
      (by norm_num [trW3]),
   (C5_withdrawal_semantics procAfterDeposit trW9 rfl
      (by simp [procAfterDeposit, mapLookup, trW9, dep1Transfer])
      { available := 5, held := 0, locked := false }
      (by simp [procAfterDeposit, mapLookup, trW9]) rfl).2
      (by norm_num [trW9])⟩

/-- `procAfterDeposit` with the deposit under dispute. -/
def procDisp : TransactionProcessor :=
  { accounts := [(1, { available := 0, held := 5, locked := false })],
    transfers := [(1, dep1Transfer)], in_dispute := [1], charged_back := [] }

/-- `procDisp` after the dispute was resolved: back to `procAfterDeposit`. -/
def procResolved : TransactionProcessor :=
  { accounts := [(1, { available := 5, held := 0, locked := false })],
    transfers := [(1, dep1Transfer)], in_dispute := [], charged_back := [] }

theorem dispute_eval :
    procAfterDeposit.process (.amendment ⟨.dispute, 1, 1⟩) = .ok procDisp := by
  norm_num [TransactionProcessor.process, procAfterDeposit, procDisp,
    dep1Transfer, mapLookup, mapInsert, setInsert, setRemove, setErase,
    commitAmendment]

theorem C6_witness :
    ∃ a0 a2, mapLookup procAfterDeposit.accounts 1 = some a0 ∧
      mapLookup procResolved.accounts 1 = some a2 ∧
      a2.available = a0.available ∧ a2.held = a0.held :=
  C6_dispute_then_resolve_restores_balances procAfterDeposit 1 1 1
    procDisp procResolved dispute_eval
    (by norm_num [TransactionProcessor.process, procDisp, procResolved,
      dep1Transfer, mapLookup, mapInsert, setInsert, setRemove, setErase,
      commitAmendment])

theorem C7_witness :
    ∃ tr a1 a2, mapLookup procAfterDeposit.transfers 1 = some tr ∧
      mapLookup procDisp.accounts tr.client_id = some a1 ∧
      mapLookup procAfterCB.accounts tr.client_id = some a2 ∧
      a2.locked = true ∧ a2.held = a1.held - tr.amount ∧
      1 ∈ procAfterCB.charged_back ∧
      ∀ txs s' c'' s'', run procAfterCB txs = some s' →
        s'.process (.amendment ⟨.dispute, c'', 1⟩) ≠ .ok s'' :=
  C7_dispute_then_chargeback_locks_forever procAfterDeposit 1 1 1
    procDisp procAfterCB dispute_eval
    (by norm_num [TransactionProcessor.process, procDisp, procAfterCB,
      dep1Transfer, mapLookup, mapInsert, setInsert, setRemove, setErase,
      commitAmendment])

/-- C9 counterexample: in the reachable state `procAfterCB` client 1's
account is locked, yet a further Transfer naming client 1 that reuses
transaction id 1 is rejected with `TransactionIdAlreadyExists` — not with
`TransferOnLockedAccount` as the claim demands (the duplicate-id check runs
first). -/
theorem C9_counterexample_duplicate_id_on_locked_account :
    run emptyProcessor [depositTx 1 1 5, disputeTx 1 1, chargebackTx 1 1] =
      some procAfterCB ∧
    mapLookup procAfterCB.accounts 1 =
      some { available := 0, held := 0, locked := true } ∧
    procAfterCB.process (depositTx 1 1 3) =
      .err .TransactionIdAlreadyExists procAfterCB ∧
    ¬ procAfterCB.process (depositTx 1 1 3) =
      .err .TransferOnLockedAccount procAfterCB := by
  have h3 : procAfterCB.process (depositTx 1 1 3) =
      .err .TransactionIdAlreadyExists procAfterCB := by
    norm_num [TransactionProcessor.process, procAfterCB, depositTx, mapLookup]
  refine ⟨?_, ?_, h3, ?_⟩
  · norm_num [run, TransactionProcessor.process, depositTx, disputeTx,
      chargebackTx, default_account, mapLookup, mapInsert, setInsert, setRemove,
      setErase, commitAmendment, emptyProcessor, procAfterCB]
  · simp [procAfterCB, mapLookup]
  · rw [h3]
    simp

/-- A locked account holding an undisputed transfer: amendments still apply. -/
def procC9e : TransactionProcessor :=
  { accounts := [(1, { available := 5, held := 0, locked := true })],
    transfers := [(2, { transfer_type := .deposit, client_id := 1,
                        transaction_id := 2, amount := 3 })],
    in_dispute := [], charged_back := [] }

/-- `procC9e` after a successful dispute of transaction 2. -/
def procC9eAfter : TransactionProcessor :=
  { accounts := [(1, { available := 2, held := 3, locked := true })],
    transfers := [(2, { transfer_type := .deposit, client_id := 1,
                        transaction_id := 2, amount := 3 })],
    in_dispute := [2], charged_back := [] }

/-- C9 as amended: once an account is locked it stays locked across any
further non-panicking batch; every further Transfer naming that client fails
— with `TransferOnLockedAccount` when its transaction id is fresh, with
`TransactionIdAlreadyExists` when it reuses a stored id — leaving the state
untouched and never succeeding; and amendments are not guarded by the lock
flag (a dispute on a locked account can still succeed). -/
theorem C9_locked_account_amended :
    (∀ (s : TransactionProcessor) (txs : List Transaction)
        (s' : TransactionProcessor) (c : ClientID) (a : Account),
        run s txs = some s' →
        mapLookup s.accounts c = some a → a.locked = true →
        ∃ a', mapLookup s'.accounts c = some a' ∧ a'.locked = true) ∧
    (∀ (s : TransactionProcessor) (tr : Transfer) (a : Account),
        mapLookup s.accounts tr.client_id = some a → a.locked = true →
        mapLookup s.transfers tr.transaction_id = none →
        s.process (.transfer tr) = .err .TransferOnLockedAccount s) ∧
    (∀ (s : TransactionProcessor) (tr : Transfer),
        (mapLookup s.transfers tr.transaction_id).isSome →
        s.process (.transfer tr) = .err .TransactionIdAlreadyExists s) ∧
    (∀ (s s1 : TransactionProcessor) (tr : Transfer) (a : Account),
        mapLookup s.accounts tr.client_id = some a → a.locked = true →
        s.process (.transfer tr) ≠ .ok s1) ∧
    procC9e.process (disputeTx 1 2) = .ok procC9eAfter := by
  have hlocked : ∀ (s : TransactionProcessor) (tr : Transfer) (a : Account),
      mapLookup s.accounts tr.client_id = some a → a.locked = true →
      mapLookup s.transfers tr.transaction_id = none →
      s.process (.transfer tr) = .err .TransferOnLockedAccount s := by
    intro s tr a ha hl hfresh
    refine process_transfer_locked s tr hfresh ?_
    rw [ha]
    simpa using hl
  refine ⟨?_, hlocked, ?_, ?_, ?_⟩
  · intro s txs s' c a hr ha hl
    exact run_lock_persists c txs s s' hr ⟨a, ha, hl⟩
  · intro s tr h
    exact process_transfer_dup s tr h
  · intro s s1 tr a ha hl hok
    by_cases hdup : (mapLookup s.transfers tr.transaction_id).isSome
    · rw [process_transfer_dup s tr hdup] at hok
      cases hok
    · have hfresh : mapLookup s.transfers tr.transaction_id = none :=
        Option.not_isSome_iff_eq_none.mp hdup
      rw [hlocked s tr a ha hl hfresh] at hok
      cases hok
  · norm_num [TransactionProcessor.process, procC9e, procC9eAfter, disputeTx,
      mapLookup, mapInsert, setInsert, setRemove, setErase, commitAmendment]

/-- The ledger `procAfterCB` after a further deposit(client 2, tx 9, 7). -/
def procC9b : TransactionProcessor :=
  { accounts := [(1, { available := 0, held := 0, locked := true }),
                 (2, { available := 7, held := 0, locked := false })],
    transfers := [(1, dep1Transfer),
                  (9, { transfer_type := .deposit, client_id := 2,
                        transaction_id := 9, amount := 7 })],
    in_dispute := [], charged_back := [1] }

/-- A fresh-id withdrawal by the locked client 1. -/
def trFreshLocked : Transfer :=
  { transfer_type := .withdrawal, client_id := 1, transaction_id := 7,
    amount := 1 }

/-- A deposit by the locked client 1 reusing stored transaction id 1. -/
def trDupLocked : Transfer :=
  { transfer_type := .deposit, client_id := 1, transaction_id := 1,
    amount := 3 }

theorem C9_witness :
    (∃ a', mapLookup procC9b.accounts 1 = some a' ∧ a'.locked = true) ∧
    procAfterCB.process (.transfer trFreshLocked) =
      .err .TransferOnLockedAccount procAfterCB ∧
    procAfterCB.process (.transfer trDupLocked) =
      .err .TransactionIdAlreadyExists procAfterCB ∧
    procAfterCB.process (.transfer trFreshLocked) ≠ .ok procAfterCB :=
  ⟨C9_locked_account_amended.1 procAfterCB [depositTx 2 9 7] procC9b 1
      { available := 0, held := 0, locked := true }
      (by norm_num [run, TransactionProcessor.process, depositTx,
        default_account, mapLookup, mapInsert, procAfterCB, procC9b,
        dep1Transfer])
      (by simp [procAfterCB, mapLookup]) rfl,
   C9_locked_account_amended.2.1 procAfterCB trFreshLocked
      { available := 0, held := 0, locked := true }
      (by simp [procAfterCB, mapLookup, trFreshLocked]) rfl
      (by simp [procAfterCB, mapLookup, trFreshLocked]),
   C9_locked_account_amended.2.2.1 procAfterCB trDupLocked
      (by simp [procAfterCB, mapLookup, trDupLocked]),
   C9_locked_account_amended.2.2.2.1 procAfterCB procAfterCB trFreshLocked
      { available := 0, held := 0, locked := true }
      (by simp [procAfterCB, mapLookup, trFreshLocked]) rfl⟩
